import Mathlib

/-!
Verification development for the alproj-gui backend job orchestration core
(src/backend/app/core/jobs.py), the recovery checkpoint store
(src/backend/app/services/recovery.py), project archive I/O
(src/backend/app/services/project_io.py) and the websocket progress
handler (src/backend/app/api/routes/georectify.py).

The Python code is shallowly embedded: pure methods become Lean functions,
the cooperative asyncio execution of JobQueue._run_job / JobQueue.cancel
becomes a small-step relation on an explicit queue state, filesystem writes
become an event sequence over an explicit file-system map, and exceptions
become Except values.  Floats only ever enter through the progress clamp
max(0.0, min(1.0, p)), which is exact comparison, so progress is modelled
with the rationals.
-/

/-- Embeds class JobStatus (jobs.py lines 23-30). -/
inductive JobStatus where
  | pending
  | running
  | completed
  | failed
  | cancelled
deriving DecidableEq

/-- Embeds JobStatus.value, the wire string of each status. -/
def JobStatus.value : JobStatus → String
  | .pending => "pending"
  | .running => "running"
  | .completed => "completed"
  | .failed => "failed"
  | .cancelled => "cancelled"

/-- True on the three terminal statuses {completed, failed, cancelled}. -/
def JobStatus.isTerminal : JobStatus → Bool
  | .completed => true
  | .failed => true
  | .cancelled => true
  | _ => false

/-- Embeds dataclass JobProgress (jobs.py lines 33-39). -/
structure JobProgress where
  progress : ℚ
  step : String
  message : String
deriving DecidableEq

/-- A registered progress callback.  The callback body is opaque to jobs.py;
what matters to the queue is whether an invocation raises and which updates
were delivered, so an observer is its raise-behaviour plus its log of
received updates. -/
structure Observer where
  raises : Bool
  received : List JobProgress
deriving DecidableEq

/-- One invocation of a progress callback: it either raises (modelled as an
Except.error, matching a Python exception) or records the delivered update. -/
def runCallback (o : Observer) (u : JobProgress) : Except String Observer :=
  if o.raises then .error "callback raised" else .ok { o with received := o.received ++ [u] }

/-- Embeds the notification loop of Job.update_progress (jobs.py lines
128-132): each callback is awaited inside try/except Exception, so a raising
callback is caught (kept unchanged here; the code logs a warning) and the
loop continues with the remaining callbacks. -/
def notifyCallbacks : List Observer → JobProgress → List Observer
  | [], _ => []
  | o :: rest, u =>
    (match runCallback o u with
     | .ok o2 => o2
     | .error _ => o) :: notifyCallbacks rest u

/-- The same notification loop written in the exception monad, so that
propagation of a callback exception to the caller of update_progress would
show up as an Except.error of the whole loop.  The try/except around each
call is the match on runCallback. -/
def notifyCallbacksE : List Observer → JobProgress → Except String (List Observer)
  | [], _ => .ok []
  | o :: rest, u => do
    let o2 := match runCallback o u with
      | .ok o2 => o2
      | .error _ => o
    let rest2 ← notifyCallbacksE rest u
    .ok (o2 :: rest2)

/-- Embeds dataclass Job (jobs.py lines 42-62).  Timestamps are ticks of the
execution model; _cancel_event.is_set() is the Bool cancelRequested;
_progress_callbacks is the observer list. -/
structure Job where
  id : Nat
  status : JobStatus
  progress : ℚ
  step : String
  message : String
  createdAt : Nat
  startedAt : Option Nat
  completedAt : Option Nat
  error : Option String
  result : Option String
  cancelRequested : Bool
  callbacks : List Observer
deriving DecidableEq

/-- A freshly constructed Job (dataclass defaults, jobs.py lines 46-62). -/
def newJob (id t : Nat) : Job :=
  { id := id, status := .pending, progress := 0, step := "", message := "",
    createdAt := t, startedAt := none, completedAt := none,
    error := none, result := none, cancelRequested := false, callbacks := [] }

/-- Embeds Job.update_progress (jobs.py lines 112-132): clamp the value to
[0, 1], replace step and message, then notify every callback in registration
order with the clamped update. -/
def update_progress (j : Job) (p : ℚ) (st m : String) : Job :=
  let clamped := max 0 (min 1 p)
  { j with progress := clamped, step := st, message := m,
           callbacks := notifyCallbacks j.callbacks ⟨clamped, st, m⟩ }

/-- Embeds Job.request_cancellation (jobs.py lines 84-86): it sets the
cancellation event unconditionally, with no look at the status. -/
def request_cancellation (j : Job) : Job :=
  { j with cancelRequested := true }

/-- A sequence of update_progress calls applied in order. -/
def applyUpdates (j : Job) (us : List (ℚ × String × String)) : Job :=
  us.foldl (fun j u => update_progress j u.1 u.2.1 u.2.2) j

/-!
Execution model of JobQueue (jobs.py lines 139-294) under the asyncio
cooperative scheduler.  A submitted work function (JobFunc) is a program
over the suspension points the repository's work functions actually use:
await job.check_cancellation(), await job.update_progress(...),
await asyncio.sleep(...), a normal return, or a raised exception.
-/

/-- A work function submitted to the queue, as a program over its awaits.
ret none models a Python function returning None. -/
inductive WorkProg where
  | ret (v : Option String)
  | raiseExn (msg : String)
  | checkCancel (k : WorkProg)
  | sleep (k : WorkProg)
  | updateProg (p : ℚ) (st m : String) (k : WorkProg)
deriving DecidableEq

/-- Where the supervising task JobQueue._run_job (jobs.py lines 202-233)
currently is: suspended in the semaphore acquire (the admission-control
point, before the try block), executing the work function inside the try
block, or finished. -/
inductive TaskPhase where
  | waitingSem (prog : WorkProg)
  | running (prog : WorkProg)
  | done
deriving DecidableEq

/-- A job together with its supervising asyncio task.  cancelSignal is true
once JobQueue.cancel has called task.cancel(), i.e. a CancelledError is due
for delivery at the next (or current) suspension point of the task. -/
structure JobSlot where
  job : Job
  phase : TaskPhase
  cancelSignal : Bool
deriving DecidableEq

/-- Queue state: the job map (one slot per submitted job, indexed by
submission order), the free permits of asyncio.Semaphore(max_concurrent),
and a tick counter standing in for datetime.now(). -/
structure QState where
  slots : List JobSlot
  sem : Nat
  time : Nat
deriving DecidableEq

/-- State of a freshly constructed JobQueue(max_concurrent) (jobs.py lines
157-165): no jobs, all permits free. -/
def initState (maxConcurrent : Nat) : QState :=
  ⟨[], maxConcurrent, 0⟩

/-- Effect of JobQueue.submit (jobs.py lines 183-200): a new pending Job is
registered and its supervising task starts at the semaphore acquire. -/
def submitEff (s : QState) (prog : WorkProg) : QState :=
  ⟨s.slots ++ [⟨newJob s.slots.length s.time, .waitingSem prog, false⟩], s.sem, s.time + 1⟩

/-- Effect of the semaphore acquire in _run_job (jobs.py lines 210-213):
take one permit, set status RUNNING and stamp started_at. -/
def acquireEff (s : QState) (i : Nat) (sl : JobSlot) (prog : WorkProg) : QState :=
  ⟨s.slots.set i ⟨{ sl.job with status := .running, startedAt := some s.time },
                  .running prog, sl.cancelSignal⟩,
   s.sem - 1, s.time + 1⟩

/-- Effect of a normal return of the work function (jobs.py lines 216-220
plus the finally block and the semaphore release): store the result, set
COMPLETED, force progress to 1.0, stamp completed_at, release the permit. -/
def completeEff (s : QState) (i : Nat) (sl : JobSlot) (v : Option String) : QState :=
  ⟨s.slots.set i ⟨{ sl.job with status := .completed, result := v, progress := 1,
                                completedAt := some s.time }, .done, sl.cancelSignal⟩,
   s.sem + 1, s.time + 1⟩

/-- Effect of the work function raising an ordinary exception (jobs.py lines
227-233): set FAILED, store str(e), stamp completed_at, release the permit. -/
def failEff (s : QState) (i : Nat) (sl : JobSlot) (msg : String) : QState :=
  ⟨s.slots.set i ⟨{ sl.job with status := .failed, error := some msg,
                                completedAt := some s.time }, .done, sl.cancelSignal⟩,
   s.sem + 1, s.time + 1⟩

/-- Effect of a CancelledError unwinding the work function, caught by the
except branch of _run_job (jobs.py lines 222-225 plus finally): set
CANCELLED, error "Job was cancelled", stamp completed_at, release the
permit.  jBase is the job as the unwinding finds it. -/
def cancelTermEff (s : QState) (i : Nat) (sl : JobSlot) (jBase : Job) : QState :=
  ⟨s.slots.set i ⟨{ jBase with status := .cancelled, error := some "Job was cancelled",
                               completedAt := some s.time }, .done, sl.cancelSignal⟩,
   s.sem + 1, s.time + 1⟩

/-- Effect of a work-function step that only advances the program (a sleep
completing, or check_cancellation finding the event clear). -/
def stepProgEff (s : QState) (i : Nat) (sl : JobSlot) (k : WorkProg) : QState :=
  ⟨s.slots.set i ⟨sl.job, .running k, sl.cancelSignal⟩, s.sem, s.time + 1⟩

/-- Effect of the work function executing await job.update_progress(...). -/
def updateEff (s : QState) (i : Nat) (sl : JobSlot) (p : ℚ) (st m : String)
    (k : WorkProg) : QState :=
  ⟨s.slots.set i ⟨update_progress sl.job p st m, .running k, sl.cancelSignal⟩,
   s.sem, s.time + 1⟩

/-- Effect of JobQueue.cancel on a PENDING or RUNNING job (jobs.py lines
244-262): job.request_cancellation() sets the event, and if the task is not
done task.cancel() marks a CancelledError for delivery.  cancel then awaits
the task; its return is modelled by the task later reaching phase done. -/
def cancelCallEff (s : QState) (i : Nat) (sl : JobSlot) : QState :=
  ⟨s.slots.set i ⟨request_cancellation sl.job, sl.phase,
                  if sl.phase = .done then sl.cancelSignal else true⟩,
   s.sem, s.time + 1⟩

/-- Effect of the CancelledError being delivered while the task is suspended
in the semaphore acquire: the acquire is outside the try block of _run_job,
so nothing catches it; the task dies, the job record is not touched and no
permit was held. -/
def deadAtSemEff (s : QState) (i : Nat) (sl : JobSlot) : QState :=
  ⟨s.slots.set i ⟨sl.job, .done, sl.cancelSignal⟩, s.sem, s.time + 1⟩

/-- Effect of job.add_progress_callback (jobs.py lines 99-103), as invoked by
an outside observer such as the websocket handler. -/
def addObserverEff (s : QState) (i : Nat) (sl : JobSlot) (ob : Observer) : QState :=
  ⟨s.slots.set i ⟨{ sl.job with callbacks := sl.job.callbacks ++ [ob] }, sl.phase,
                  sl.cancelSignal⟩,
   s.sem, s.time + 1⟩

/-- One step of the cooperative scheduler over the queue.  Each constructor
is one atomic stretch of Python between suspension points.

A task with cancelSignal set cannot pass a genuine suspension point (the
semaphore acquire, a sleep, or the awaits inside update_progress): asyncio
delivers the pending CancelledError there instead, which is the deliver
rules.  check_cancellation contains no await, so it runs even with the
signal pending, and raises itself whenever the event is set.  A work
function that reaches its return (or a raise) without suspending again
completes normally even if a cancel signal is pending. -/
inductive Step (N : Nat) : QState → QState → Prop where
  | submit (s : QState) (prog : WorkProg) :
      Step N s (submitEff s prog)
  | acquire (s : QState) (i : Nat) (sl : JobSlot) (prog : WorkProg)
      (h : s.slots[i]? = some sl) (hph : sl.phase = .waitingSem prog)
      (hsig : sl.cancelSignal = false) (hsem : 0 < s.sem) :
      Step N s (acquireEff s i sl prog)
  | workRet (s : QState) (i : Nat) (sl : JobSlot) (v : Option String)
      (h : s.slots[i]? = some sl) (hph : sl.phase = .running (.ret v)) :
      Step N s (completeEff s i sl v)
  | workRaise (s : QState) (i : Nat) (sl : JobSlot) (msg : String)
      (h : s.slots[i]? = some sl) (hph : sl.phase = .running (.raiseExn msg)) :
      Step N s (failEff s i sl msg)
  | workCheckOk (s : QState) (i : Nat) (sl : JobSlot) (k : WorkProg)
      (h : s.slots[i]? = some sl) (hph : sl.phase = .running (.checkCancel k))
      (hflag : sl.job.cancelRequested = false) :
      Step N s (stepProgEff s i sl k)
  | workCheckCancelled (s : QState) (i : Nat) (sl : JobSlot) (k : WorkProg)
      (h : s.slots[i]? = some sl) (hph : sl.phase = .running (.checkCancel k))
      (hflag : sl.job.cancelRequested = true) :
      Step N s (cancelTermEff s i sl sl.job)
  | workSleep (s : QState) (i : Nat) (sl : JobSlot) (k : WorkProg)
      (h : s.slots[i]? = some sl) (hph : sl.phase = .running (.sleep k))
      (hsig : sl.cancelSignal = false) :
      Step N s (stepProgEff s i sl k)
  | workUpdate (s : QState) (i : Nat) (sl : JobSlot) (p : ℚ) (st m : String) (k : WorkProg)
      (h : s.slots[i]? = some sl) (hph : sl.phase = .running (.updateProg p st m k))
      (hsig : sl.cancelSignal = false) :
      Step N s (updateEff s i sl p st m k)
  | cancelCall (s : QState) (i : Nat) (sl : JobSlot)
      (h : s.slots[i]? = some sl)
      (hstat : sl.job.status = .pending ∨ sl.job.status = .running) :
      Step N s (cancelCallEff s i sl)
  | deliverAtSem (s : QState) (i : Nat) (sl : JobSlot) (prog : WorkProg)
      (h : s.slots[i]? = some sl) (hph : sl.phase = .waitingSem prog)
      (hsig : sl.cancelSignal = true) :
      Step N s (deadAtSemEff s i sl)
  | deliverAtSleep (s : QState) (i : Nat) (sl : JobSlot) (k : WorkProg)
      (h : s.slots[i]? = some sl) (hph : sl.phase = .running (.sleep k))
      (hsig : sl.cancelSignal = true) :
      Step N s (cancelTermEff s i sl sl.job)
  | deliverAtUpdate (s : QState) (i : Nat) (sl : JobSlot) (p : ℚ) (st m : String) (k : WorkProg)
      (h : s.slots[i]? = some sl) (hph : sl.phase = .running (.updateProg p st m k))
      (hsig : sl.cancelSignal = true) :
      Step N s (cancelTermEff s i sl (update_progress sl.job p st m))
  | addObserver (s : QState) (i : Nat) (sl : JobSlot) (ob : Observer)
      (h : s.slots[i]? = some sl) :
      Step N s (addObserverEff s i sl ob)

/-- Zero or more scheduler steps. -/
def Steps (N : Nat) : QState → QState → Prop :=
  Relation.ReflTransGen (Step N)

/-- States a JobQueue(max_concurrent := N) can be in. -/
def Reachable (N : Nat) (s : QState) : Prop :=
  Steps N (initState N) s

/-- Counts list elements satisfying a Boolean predicate. -/
def countB {α : Type} (p : α → Bool) : List α → Nat
  | [] => 0
  | x :: xs => (if p x then 1 else 0) + countB p xs

/-- A slot whose task holds a semaphore permit (phase inside the async with). -/
def isRunningPhase (sl : JobSlot) : Bool :=
  match sl.phase with
  | .running _ => true
  | _ => false

/-- A slot whose Job currently reports status RUNNING. -/
def hasRunningStatus (sl : JobSlot) : Bool :=
  match sl.job.status with
  | .running => true
  | _ => false

/-- A slot whose Job currently reports status PENDING. -/
def hasPendingStatus (sl : JobSlot) : Bool :=
  match sl.job.status with
  | .pending => true
  | _ => false

/-! List helper lemmas, proved from first principles so the development is
self-contained. -/

theorem countB_append {α : Type} (p : α → Bool) (l1 l2 : List α) :
    countB p (l1 ++ l2) = countB p l1 + countB p l2 := by
  induction l1 with
  | nil => simp [countB]
  | cons x xs ih => simp [countB, ih]; omega

theorem get?_mem {α : Type} : ∀ (l : List α) (i : Nat) (a : α), l[i]? = some a → a ∈ l := by
  intro l
  induction l with
  | nil => intro i a h; cases i <;> simp at h
  | cons x xs ih =>
    intro i a h
    cases i with
    | zero => simp at h; simp [h]
    | succ n => simp at h; exact List.mem_cons_of_mem x (ih n a h)

theorem get?_lt {α : Type} : ∀ (l : List α) (i : Nat) (a : α),
    l[i]? = some a → i < l.length := by
  intro l
  induction l with
  | nil => intro i a h; cases i <;> simp at h
  | cons x xs ih =>
    intro i a h
    cases i with
    | zero => simp
    | succ n =>
      simp at h
      have := ih n a h
      simpa using Nat.succ_lt_succ this

theorem get?_append_left {α : Type} : ∀ (l1 l2 : List α) (i : Nat),
    i < l1.length → (l1 ++ l2)[i]? = l1[i]? := by
  intro l1
  induction l1 with
  | nil => intro l2 i h; simp at h
  | cons x xs ih =>
    intro l2 i h
    cases i with
    | zero => simp
    | succ n => simpa using ih l2 n (by simpa using h)

theorem get?_set_self {α : Type} : ∀ (l : List α) (i : Nat) (a : α),
    i < l.length → (l.set i a)[i]? = some a := by
  intro l
  induction l with
  | nil => intro i a h; simp at h
  | cons x xs ih =>
    intro i a h
    cases i with
    | zero => simp
    | succ n => simpa using ih n a (by simpa using h)

theorem get?_set_other {α : Type} : ∀ (l : List α) (i j : Nat) (a : α),
    i ≠ j → (l.set i a)[j]? = l[j]? := by
  intro l
  induction l with
  | nil => intro i j a _; simp
  | cons x xs ih =>
    intro i j a hij
    cases i with
    | zero =>
      cases j with
      | zero => exact absurd rfl hij
      | succ m => simp
    | succ n =>
      cases j with
      | zero => simp
      | succ m => simpa using ih n m a (fun he => hij (by rw [he]))

theorem mem_set_or {α : Type} : ∀ (l : List α) (i : Nat) (a x : α),
    x ∈ l.set i a → x ∈ l ∨ x = a := by
  intro l
  induction l with
  | nil => intro i a x h; simp at h
  | cons y ys ih =>
    intro i a x h
    cases i with
    | zero =>
      rcases List.mem_cons.mp h with h | h
      · exact Or.inr h
      · exact Or.inl (List.mem_cons_of_mem y h)
    | succ n =>
      rcases List.mem_cons.mp h with h | h
      · exact Or.inl (h ▸ List.mem_cons_self y ys)
      · rcases ih n a x h with h | h
        · exact Or.inl (List.mem_cons_of_mem y h)
        · exact Or.inr h

theorem countB_set_add {α : Type} (p : α → Bool) : ∀ (l : List α) (i : Nat) (a b : α),
    l[i]? = some b →
    countB p (l.set i a) + (if p b then 1 else 0)
      = countB p l + (if p a then 1 else 0) := by
  intro l
  induction l with
  | nil => intro i a b h; cases i <;> simp at h
  | cons x xs ih =>
    intro i a b h
    cases i with
    | zero =>
      simp at h
      subst h
      simp [countB]
      omega
    | succ n =>
      simp at h
      have := ih n a b h
      simp [countB, List.set]
      omega

theorem countB_congr {α : Type} (p q : α → Bool) : ∀ l : List α,
    (∀ x ∈ l, p x = q x) → countB p l = countB q l := by
  intro l
  induction l with
  | nil => intro _; rfl
  | cons x xs ih =>
    intro h
    simp only [countB, h x (List.mem_cons_self x xs),
               ih (fun y hy => h y (List.mem_cons_of_mem x hy))]

/-! Projection facts for update_progress and request_cancellation: both
methods leave every lifecycle field of the Job untouched. -/

@[simp] theorem update_progress_id (j : Job) (p : ℚ) (st m : String) :
    (update_progress j p st m).id = j.id := rfl

@[simp] theorem update_progress_status (j : Job) (p : ℚ) (st m : String) :
    (update_progress j p st m).status = j.status := rfl

@[simp] theorem update_progress_startedAt (j : Job) (p : ℚ) (st m : String) :
    (update_progress j p st m).startedAt = j.startedAt := rfl

@[simp] theorem update_progress_completedAt (j : Job) (p : ℚ) (st m : String) :
    (update_progress j p st m).completedAt = j.completedAt := rfl

@[simp] theorem update_progress_error (j : Job) (p : ℚ) (st m : String) :
    (update_progress j p st m).error = j.error := rfl

@[simp] theorem update_progress_result (j : Job) (p : ℚ) (st m : String) :
    (update_progress j p st m).result = j.result := rfl

@[simp] theorem update_progress_cancelRequested (j : Job) (p : ℚ) (st m : String) :
    (update_progress j p st m).cancelRequested = j.cancelRequested := rfl

@[simp] theorem request_cancellation_status (j : Job) :
    (request_cancellation j).status = j.status := rfl

/-! The queue invariant: the phase of the supervising task determines the
observable status band of its Job, a pending cancel signal implies the
cancellation event is set, and each status fixes which of result, error and
the timestamps are populated. -/

/-- Which of result, error, started_at and completed_at are populated in
each status, as maintained by JobQueue._run_job. -/
def fieldOk (j : Job) : Prop :=
  match j.status with
  | .pending => j.startedAt = none ∧ j.completedAt = none ∧ j.error = none ∧ j.result = none
  | .running => j.startedAt ≠ none ∧ j.completedAt = none ∧ j.error = none ∧ j.result = none
  | .completed => j.error = none ∧ j.completedAt ≠ none
  | .failed => j.error ≠ none ∧ j.result = none ∧ j.completedAt ≠ none
  | .cancelled => j.error = some "Job was cancelled" ∧ j.result = none ∧ j.completedAt ≠ none

/-- Task phase versus Job status: a task suspended in the semaphore acquire
supervises a PENDING job, a task inside the async with supervises a RUNNING
job, and a finished task never leaves a job RUNNING. -/
def phaseStatusOk (sl : JobSlot) : Prop :=
  match sl.phase with
  | .waitingSem _ => sl.job.status = .pending
  | .running _ => sl.job.status = .running
  | .done => sl.job.status ≠ .running

/-- Per-slot invariant. -/
def SlotInv (sl : JobSlot) : Prop :=
  phaseStatusOk sl ∧ (sl.cancelSignal = true → sl.job.cancelRequested = true)
    ∧ fieldOk sl.job

/-- Queue invariant: every slot is well formed, and free permits plus tasks
inside the async with always total max_concurrent. -/
def QInv (N : Nat) (s : QState) : Prop :=
  (∀ sl ∈ s.slots, SlotInv sl) ∧ s.sem + countB isRunningPhase s.slots = N

theorem inv_init (N : Nat) : QInv N (initState N) := by
  constructor
  · intro sl h; simp [initState] at h
  · simp [initState, countB]

@[simp] theorem request_cancellation_startedAt (j : Job) :
    (request_cancellation j).startedAt = j.startedAt := rfl

@[simp] theorem request_cancellation_completedAt (j : Job) :
    (request_cancellation j).completedAt = j.completedAt := rfl

@[simp] theorem request_cancellation_error (j : Job) :
    (request_cancellation j).error = j.error := rfl

@[simp] theorem request_cancellation_result (j : Job) :
    (request_cancellation j).result = j.result := rfl

@[simp] theorem request_cancellation_cancelRequested (j : Job) :
    (request_cancellation j).cancelRequested = true := rfl

/-- fieldOk only looks at status, the two timestamps, error and result, so
it transports along any Job change that preserves those five fields. -/
theorem fieldOk_of_same (j j' : Job) (hs : j'.status = j.status)
    (h1 : j'.startedAt = j.startedAt) (h2 : j'.completedAt = j.completedAt)
    (h3 : j'.error = j.error) (h4 : j'.result = j.result)
    (hfo : fieldOk j) : fieldOk j' := by
  cases hst : j.status <;>
    simp only [fieldOk, hs, hst, h1, h2, h3, h4] at hfo ⊢ <;> exact hfo

/-- phaseStatusOk transports along changes preserving phase and status. -/
theorem phaseStatusOk_of_same (sl sl' : JobSlot) (hp : sl'.phase = sl.phase)
    (hs : sl'.job.status = sl.job.status) (h : phaseStatusOk sl) :
    phaseStatusOk sl' := by
  cases hph : sl.phase <;>
    simp only [phaseStatusOk, hp, hph, hs] at h ⊢ <;> exact h

/-- Slot list update preserves the per-slot invariant of untouched slots. -/
theorem slotinv_after_set {slots : List JobSlot} {i : Nat} {sl' : JobSlot}
    (hslots : ∀ sl ∈ slots, SlotInv sl) (hnew : SlotInv sl') :
    ∀ x ∈ slots.set i sl', SlotInv x := by
  intro x hx
  rcases mem_set_or slots i sl' x hx with hx | rfl
  · exact hslots x hx
  · exact hnew

/-- Every scheduler step preserves the queue invariant. -/
theorem inv_step {N : Nat} {s s2 : QState} (hInv : QInv N s) (hstep : Step N s s2) :
    QInv N s2 := by
  obtain ⟨hslots, hsem⟩ := hInv
  cases hstep with
  | submit prog =>
    refine ⟨?_, ?_⟩
    · intro x hx
      simp only [submitEff] at hx
      rcases List.mem_append.mp hx with hx | hx
      · exact hslots x hx
      · rcases List.mem_singleton.mp hx with rfl
        exact ⟨rfl, by simp, ⟨rfl, rfl, rfl, rfl⟩⟩
    · simp only [submitEff, countB_append]
      simpa [countB, isRunningPhase] using hsem
  | acquire i sl prog h hph hsig hsem0 =>
    obtain ⟨hps, hsf, hfo⟩ := hslots sl (get?_mem _ _ _ h)
    simp only [phaseStatusOk, hph] at hps
    simp only [fieldOk, hps] at hfo
    have hc := countB_set_add isRunningPhase s.slots i
      ⟨{ sl.job with status := .running, startedAt := some s.time },
       .running prog, sl.cancelSignal⟩ sl h
    simp [isRunningPhase, hph] at hc
    refine ⟨slotinv_after_set hslots ?_, ?_⟩
    · refine ⟨rfl, ?_, ?_⟩
      · intro hh; simp [hsig] at hh
      · exact ⟨by simp, hfo.2.1, hfo.2.2.1, hfo.2.2.2⟩
    · simp only [acquireEff]
      omega
  | workRet i sl v h hph =>
    obtain ⟨hps, hsf, hfo⟩ := hslots sl (get?_mem _ _ _ h)
    simp only [phaseStatusOk, hph] at hps
    simp only [fieldOk, hps] at hfo
    have hc := countB_set_add isRunningPhase s.slots i
      ⟨{ sl.job with status := .completed, result := v, progress := 1,
                     completedAt := some s.time }, .done, sl.cancelSignal⟩ sl h
    simp [isRunningPhase, hph] at hc
    refine ⟨slotinv_after_set hslots ?_, ?_⟩
    · exact ⟨by simp [phaseStatusOk], hsf, ⟨hfo.2.2.1, by simp⟩⟩
    · simp only [completeEff]
      omega
  | workRaise i sl msg h hph =>
    obtain ⟨hps, hsf, hfo⟩ := hslots sl (get?_mem _ _ _ h)
    simp only [phaseStatusOk, hph] at hps
    simp only [fieldOk, hps] at hfo
    have hc := countB_set_add isRunningPhase s.slots i
      ⟨{ sl.job with status := .failed, error := some msg,
                     completedAt := some s.time }, .done, sl.cancelSignal⟩ sl h
    simp [isRunningPhase, hph] at hc
    refine ⟨slotinv_after_set hslots ?_, ?_⟩
    · exact ⟨by simp [phaseStatusOk], hsf, ⟨by simp, hfo.2.2.2, by simp⟩⟩
    · simp only [failEff]
      omega
  | workCheckOk i sl k h hph hflag =>
    obtain ⟨hps, hsf, hfo⟩ := hslots sl (get?_mem _ _ _ h)
    simp only [phaseStatusOk, hph] at hps
    have hc := countB_set_add isRunningPhase s.slots i
      ⟨sl.job, .running k, sl.cancelSignal⟩ sl h
    simp [isRunningPhase, hph] at hc
    refine ⟨slotinv_after_set hslots ⟨hps, hsf, hfo⟩, ?_⟩
    · simp only [stepProgEff]
      omega
  | workCheckCancelled i sl k h hph hflag =>
    obtain ⟨hps, hsf, hfo⟩ := hslots sl (get?_mem _ _ _ h)
    simp only [phaseStatusOk, hph] at hps
    simp only [fieldOk, hps] at hfo
    have hc := countB_set_add isRunningPhase s.slots i
      ⟨{ sl.job with status := .cancelled, error := some "Job was cancelled",
                     completedAt := some s.time }, .done, sl.cancelSignal⟩ sl h
    simp [isRunningPhase, hph] at hc
    refine ⟨slotinv_after_set hslots ?_, ?_⟩
    · exact ⟨by simp [phaseStatusOk], hsf, ⟨rfl, hfo.2.2.2, by simp⟩⟩
    · simp only [cancelTermEff]
      omega
  | workSleep i sl k h hph hsig =>
    obtain ⟨hps, hsf, hfo⟩ := hslots sl (get?_mem _ _ _ h)
    simp only [phaseStatusOk, hph] at hps
    have hc := countB_set_add isRunningPhase s.slots i
      ⟨sl.job, .running k, sl.cancelSignal⟩ sl h
    simp [isRunningPhase, hph] at hc
    refine ⟨slotinv_after_set hslots ⟨hps, hsf, hfo⟩, ?_⟩
    · simp only [stepProgEff]
      omega
  | workUpdate i sl p st m k h hph hsig =>
    obtain ⟨hps, hsf, hfo⟩ := hslots sl (get?_mem _ _ _ h)
    simp only [phaseStatusOk, hph] at hps
    have hc := countB_set_add isRunningPhase s.slots i
      ⟨update_progress sl.job p st m, .running k, sl.cancelSignal⟩ sl h
    simp [isRunningPhase, hph] at hc
    refine ⟨slotinv_after_set hslots ?_, ?_⟩
    · refine ⟨by simp [phaseStatusOk, hps], ?_, ?_⟩
      · intro hh; simpa using hsf hh
      · exact fieldOk_of_same sl.job _ rfl rfl rfl rfl rfl hfo
    · simp only [updateEff]
      omega
  | cancelCall i sl h hstat =>
    obtain ⟨hps, hsf, hfo⟩ := hslots sl (get?_mem _ _ _ h)
    have hc := countB_set_add isRunningPhase s.slots i
      ⟨request_cancellation sl.job, sl.phase,
       if sl.phase = .done then sl.cancelSignal else true⟩ sl h
    simp only [isRunningPhase] at hc
    refine ⟨slotinv_after_set hslots ?_, ?_⟩
    · refine ⟨phaseStatusOk_of_same sl _ rfl rfl hps, fun _ => rfl,
              fieldOk_of_same sl.job _ rfl rfl rfl rfl rfl hfo⟩
    · simp only [cancelCallEff]
      omega
  | deliverAtSem i sl prog h hph hsig =>
    obtain ⟨hps, hsf, hfo⟩ := hslots sl (get?_mem _ _ _ h)
    simp only [phaseStatusOk, hph] at hps
    have hc := countB_set_add isRunningPhase s.slots i
      ⟨sl.job, .done, sl.cancelSignal⟩ sl h
    simp [isRunningPhase, hph] at hc
    refine ⟨slotinv_after_set hslots ?_, ?_⟩
    · exact ⟨by simp [phaseStatusOk, hps], hsf, hfo⟩
    · simp only [deadAtSemEff]
      omega
  | deliverAtSleep i sl k h hph hsig =>
    obtain ⟨hps, hsf, hfo⟩ := hslots sl (get?_mem _ _ _ h)
    simp only [phaseStatusOk, hph] at hps
    simp only [fieldOk, hps] at hfo
    have hc := countB_set_add isRunningPhase s.slots i
      ⟨{ sl.job with status := .cancelled, error := some "Job was cancelled",
                     completedAt := some s.time }, .done, sl.cancelSignal⟩ sl h
    simp [isRunningPhase, hph] at hc
    refine ⟨slotinv_after_set hslots ?_, ?_⟩
    · exact ⟨by simp [phaseStatusOk], hsf, ⟨rfl, hfo.2.2.2, by simp⟩⟩
    · simp only [cancelTermEff]
      omega
  | deliverAtUpdate i sl p st m k h hph hsig =>
    obtain ⟨hps, hsf, hfo⟩ := hslots sl (get?_mem _ _ _ h)
    simp only [phaseStatusOk, hph] at hps
    simp only [fieldOk, hps] at hfo
    have hc := countB_set_add isRunningPhase s.slots i
      ⟨{ update_progress sl.job p st m with
                                           status := .cancelled,
                                           error := some "Job was cancelled",
                                           completedAt := some s.time },
       .done, sl.cancelSignal⟩ sl h
    simp [isRunningPhase, hph] at hc
    refine ⟨slotinv_after_set hslots ?_, ?_⟩
    · refine ⟨by simp [phaseStatusOk], ?_, ?_⟩
      · intro hh; simpa using hsf hh
      · exact ⟨rfl, by simpa using hfo.2.2.2, by simp⟩
    · simp only [cancelTermEff]
      try simp
      omega
  | addObserver i sl ob h =>
    obtain ⟨hps, hsf, hfo⟩ := hslots sl (get?_mem _ _ _ h)
    have hc := countB_set_add isRunningPhase s.slots i
      ⟨{ sl.job with callbacks := sl.job.callbacks ++ [ob] }, sl.phase,
       sl.cancelSignal⟩ sl h
    simp only [isRunningPhase] at hc
    refine ⟨slotinv_after_set hslots ?_, ?_⟩
    · exact ⟨phaseStatusOk_of_same sl _ rfl rfl hps, hsf,
             fieldOk_of_same sl.job _ rfl rfl rfl rfl rfl hfo⟩
    · simp only [addObserverEff]
      omega

/-- Every reachable state of the queue satisfies the invariant. -/
theorem inv_reachable {N : Nat} {s : QState} (h : Reachable N s) : QInv N s := by
  induction h with
  | refl => exact inv_init N
  | tail _ hstep ih => exact inv_step ih hstep

/-!
Concrete executions of the queue model, used as counterexamples and
witnesses below.  Time stamps follow the tick counter: the k-th step runs at
time k.
-/

/-- A work function that sleeps once and then returns a value. -/
def progSleepRet (v : String) : WorkProg := .sleep (.ret (some v))

def bugS0 : QState := initState 1

def bugS1 : QState := submitEff bugS0 (progSleepRet "a")

def bugS2 : QState := submitEff bugS1 (progSleepRet "b")

def bugSlotA : JobSlot := ⟨newJob 0 0, .waitingSem (progSleepRet "a"), false⟩

def bugS3 : QState := acquireEff bugS2 0 bugSlotA (progSleepRet "a")

def bugSlotB : JobSlot := ⟨newJob 1 1, .waitingSem (progSleepRet "b"), false⟩

def bugS4 : QState := cancelCallEff bugS3 1 bugSlotB

def bugSlotB2 : JobSlot :=
  ⟨request_cancellation (newJob 1 1), .waitingSem (progSleepRet "b"), true⟩

def bugS5 : QState := deadAtSemEff bugS4 1 bugSlotB2

theorem bug_reach3 : Reachable 1 bugS3 :=
  Relation.ReflTransGen.tail
    (Relation.ReflTransGen.tail
      (Relation.ReflTransGen.tail Relation.ReflTransGen.refl
        (Step.submit bugS0 (progSleepRet "a")))
      (Step.submit bugS1 (progSleepRet "b")))
    (Step.acquire bugS2 0 bugSlotA (progSleepRet "a") (by decide) rfl rfl (by decide))

theorem bug_reach5 : Reachable 1 bugS5 :=
  Relation.ReflTransGen.tail
    (Relation.ReflTransGen.tail bug_reach3
      (Step.cancelCall bugS3 1 bugSlotB (by decide) (Or.inl rfl)))
    (Step.deliverAtSem bugS4 1 bugSlotB2 (progSleepRet "b") (by decide) rfl rfl)

/-- C1: the claim says that for every job that is Pending or Running when
JobQueue.cancel is called, once cancel returns the job has reached the
Cancelled terminal state with completed_at non-null, even when it was still
waiting for a concurrency slot.  The code violates this: with
max_concurrent = 1, job A holds the only permit, job B is Pending suspended
in the semaphore acquire; cancel(B) sets the event, calls task.cancel() and
awaits the task, but the CancelledError is delivered inside the acquire,
outside the try block of _run_job, so it unwinds the whole supervisor: here
is a reachable state whose task for B is finished (cancel has returned)
while B is still Pending, with completed_at, error and result all null —
B never reaches Cancelled and can never be cleaned up. -/
theorem cancel_while_pending_leaves_job_pending_forever :
    Reachable 1 bugS5 ∧
    bugS5.slots[1]? = some ⟨request_cancellation (newJob 1 1), .done, true⟩ ∧
    (request_cancellation (newJob 1 1)).status = .pending ∧
    (request_cancellation (newJob 1 1)).completedAt = none ∧
    (request_cancellation (newJob 1 1)).error = none :=
  ⟨bug_reach5, by decide, rfl, rfl, rfl⟩

/-- Execution in which a work function returns None: submit, acquire the
permit, and return None. -/
def noneS0 : QState := initState 1

def noneS1 : QState := submitEff noneS0 (.ret none)

def noneSlot1 : JobSlot := ⟨newJob 0 0, .waitingSem (.ret none), false⟩

def noneS2 : QState := acquireEff noneS1 0 noneSlot1 (.ret none)

def noneSlot2 : JobSlot :=
  ⟨{ newJob 0 0 with status := .running, startedAt := some 1 }, .running (.ret none), false⟩

def noneS3 : QState := completeEff noneS2 0 noneSlot2 none

/-- The Job produced by a work function that returned None. -/
def jNoneFinal : Job :=
  { newJob 0 0 with status := .completed, startedAt := some 1,
                    completedAt := some 2, progress := 1 }

theorem none_reach2 : Reachable 1 noneS2 :=
  Relation.ReflTransGen.tail
    (Relation.ReflTransGen.tail Relation.ReflTransGen.refl
      (Step.submit noneS0 (.ret none)))
    (Step.acquire noneS1 0 noneSlot1 (.ret none) (by decide) rfl rfl (by decide))

theorem none_reach3 : Reachable 1 noneS3 :=
  Relation.ReflTransGen.tail none_reach2
    (Step.workRet noneS2 0 noneSlot2 none (by decide) rfl)

/-- C4, counterexample: the claim says that a terminal Job has exactly one
of result, error non-null.  A work function that returns None (a legal
JobFunc, since its declared result type is Any) yields a reachable state
with a Completed job whose result and error are both null. -/
theorem completed_job_with_null_result_and_error :
    Reachable 1 noneS3 ∧
    noneS3.slots[0]? = some ⟨jNoneFinal, .done, false⟩ ∧
    jNoneFinal.status = .completed ∧
    jNoneFinal.result = none ∧
    jNoneFinal.error = none :=
  ⟨none_reach3, by decide, rfl, rfl, rfl⟩

/-- C4, amended: in every reachable queue state each Job satisfies fieldOk:
a terminal Job has completed_at non-null; a Failed or Cancelled Job has
error non-null and result null; a Completed Job has error null and result
equal to the work function's return value (which may itself be null); a
Pending or Running Job has result, error and completed_at all null. -/
theorem terminal_state_field_discipline (N : Nat) (s : QState) (h : Reachable N s) :
    ∀ sl ∈ s.slots, fieldOk sl.job :=
  fun sl hmem => ((inv_reachable h).1 sl hmem).2.2

/-- Witness for the amended C4, at the completed-with-null-result state. -/
theorem terminal_state_field_discipline_witness : fieldOk jNoneFinal :=
  terminal_state_field_discipline 1 noneS3 none_reach3
    ⟨jNoneFinal, .done, false⟩ (by decide)

/-- C2: for a JobQueue built with max_concurrent = N, in every reachable
state at most N Jobs hold status Running, while any number k of submitted
jobs may simultaneously be Pending. -/
theorem running_jobs_never_exceed_max_concurrent (N : Nat) :
    (∀ s : QState, Reachable N s → countB hasRunningStatus s.slots ≤ N) ∧
    (∀ k : Nat, ∃ s : QState, Reachable N s ∧ countB hasPendingStatus s.slots = k) := by
  constructor
  · intro s hs
    obtain ⟨hslots, hsem⟩ := inv_reachable hs
    have heq : countB hasRunningStatus s.slots = countB isRunningPhase s.slots := by
      apply countB_congr
      intro sl hmem
      obtain ⟨hps, _, _⟩ := hslots sl hmem
      cases hph : sl.phase with
      | waitingSem p =>
        simp only [phaseStatusOk, hph] at hps
        simp [hasRunningStatus, isRunningPhase, hph, hps]
      | running p =>
        simp only [phaseStatusOk, hph] at hps
        simp [hasRunningStatus, isRunningPhase, hph, hps]
      | done =>
        simp only [phaseStatusOk, hph] at hps
        cases hst : sl.job.status <;>
          first
            | exact absurd hst hps
            | simp [hasRunningStatus, isRunningPhase, hph, hst]
    omega
  · intro k
    induction k with
    | zero => exact ⟨initState N, Relation.ReflTransGen.refl, rfl⟩
    | succ n ih =>
      obtain ⟨s, hs, hcount⟩ := ih
      refine ⟨submitEff s (.ret none),
              Relation.ReflTransGen.tail hs (Step.submit s (.ret none)), ?_⟩
      simp [submitEff, countB_append, countB, hasPendingStatus, newJob, hcount]

/-- Witness for C2 at a state with one Running job in a queue of capacity 1,
and at three Pending jobs. -/
theorem running_jobs_never_exceed_max_concurrent_witness :
    countB hasRunningStatus noneS2.slots ≤ 1 ∧
    (∃ s : QState, Reachable 1 s ∧ countB hasPendingStatus s.slots = 3) :=
  ⟨(running_jobs_never_exceed_max_concurrent 1).1 noneS2 none_reach2,
   (running_jobs_never_exceed_max_concurrent 1).2 3⟩

/-- C5: after each update_progress(p, step, message) call the observed
progress equals max(0.0, min(1.0, p)) and the step and message fields hold
exactly the arguments of the latest call. -/
theorem update_progress_clamps_and_replaces (j : Job) (us : List (ℚ × String × String))
    (p : ℚ) (st m : String) :
    (applyUpdates j (us ++ [(p, st, m)])).progress = max 0 (min 1 p) ∧
    (applyUpdates j (us ++ [(p, st, m)])).step = st ∧
    (applyUpdates j (us ++ [(p, st, m)])).message = m := by
  simp [applyUpdates, List.foldl_append, update_progress]

/-- A terminal Job whose cancellation event was never set. -/
def jDoneC8 : Job :=
  { newJob 5 0 with status := .completed, startedAt := some 1,
                    completedAt := some 2, result := some "r", progress := 1 }

/-- C8, counterexample: the claim says request_cancellation on a terminal
Job leaves all observable state, including is_cancellation_requested,
unchanged.  But request_cancellation sets the event unconditionally, so on
a Completed job that was never cancelled the flag flips false to true. -/
theorem request_cancellation_mutates_terminal_flag :
    jDoneC8.status.isTerminal = true ∧
    jDoneC8.cancelRequested = false ∧
    (request_cancellation jDoneC8).cancelRequested = true :=
  ⟨rfl, rfl, rfl⟩

/-- C8, amended: request_cancellation on a terminal Job leaves status,
progress, step, message, timestamps, error, result and the observer list
unchanged, but unconditionally sets is_cancellation_requested to true. -/
theorem request_cancellation_frame_effect (j : Job) (h : j.status.isTerminal = true) :
    (request_cancellation j).status = j.status ∧
    (request_cancellation j).progress = j.progress ∧
    (request_cancellation j).step = j.step ∧
    (request_cancellation j).message = j.message ∧
    (request_cancellation j).createdAt = j.createdAt ∧
    (request_cancellation j).startedAt = j.startedAt ∧
    (request_cancellation j).completedAt = j.completedAt ∧
    (request_cancellation j).error = j.error ∧
    (request_cancellation j).result = j.result ∧
    (request_cancellation j).callbacks = j.callbacks ∧
    (request_cancellation j).cancelRequested = true :=
  ⟨rfl, rfl, rfl, rfl, rfl, rfl, rfl, rfl, rfl, rfl, rfl⟩

/-- Witness for the amended C8 at a concrete Completed job. -/
theorem request_cancellation_frame_effect_witness :
    jDoneC8.status.isTerminal = true ∧
    (request_cancellation jDoneC8).status = jDoneC8.status ∧
    (request_cancellation jDoneC8).result = jDoneC8.result :=
  ⟨rfl, (request_cancellation_frame_effect jDoneC8 rfl).1,
   (request_cancellation_frame_effect jDoneC8 rfl).2.2.2.2.2.2.2.2.1⟩

/-- A work program parked at a polling point of a cancellation loop: an
asyncio.sleep suspension or a check_cancellation call. -/
def IsSusp (prog : WorkProg) : Prop :=
  (∃ k, prog = .sleep k) ∨ (∃ k, prog = .checkCancel k)

/-- Once JobQueue.cancel has signalled a task that is parked at a sleep or
check_cancellation point, a single scheduler step either leaves that slot
untouched or terminates it as Cancelled with the fixed error message; the
work function can make no further progress. -/
theorem cancelled_slot_frozen_step {N : Nat} {sM sF : QState} {i : Nat} {prog : WorkProg}
    (hsusp : IsSusp prog) (hstep : Step N sM sF)
    (hP : (∃ j : Job, sM.slots[i]? = some ⟨j, .running prog, true⟩ ∧
            j.cancelRequested = true ∧ j.result = none) ∨
          (∃ j : Job, sM.slots[i]? = some ⟨j, .done, true⟩ ∧ j.status = .cancelled ∧
            j.error = some "Job was cancelled" ∧ j.result = none)) :
    (∃ j : Job, sF.slots[i]? = some ⟨j, .running prog, true⟩ ∧
      j.cancelRequested = true ∧ j.result = none) ∨
    (∃ j : Job, sF.slots[i]? = some ⟨j, .done, true⟩ ∧ j.status = .cancelled ∧
      j.error = some "Job was cancelled" ∧ j.result = none) := by
  rcases hP with ⟨j, hj, hflag, hres⟩ | ⟨j, hj, hst, herr, hres⟩
  · have hlt := get?_lt _ _ _ hj
    cases hstep with
    | submit prog2 =>
      refine Or.inl ⟨j, ?_, hflag, hres⟩
      simp only [submitEff]
      rw [get?_append_left _ _ _ hlt]
      exact hj
    | acquire m sl2 prog2 hm hph hsig hsem0 =>
      by_cases hmi : m = i
      · subst hmi
        have he : sl2 = ⟨j, .running prog, true⟩ := Option.some.inj (hm.symm.trans hj)
        subst he
        simp at hph
      · refine Or.inl ⟨j, ?_, hflag, hres⟩
        simp only [acquireEff]
        rw [get?_set_other _ m i _ hmi]
        exact hj
    | workRet m sl2 v hm hph =>
      by_cases hmi : m = i
      · subst hmi
        have he : sl2 = ⟨j, .running prog, true⟩ := Option.some.inj (hm.symm.trans hj)
        subst he
        simp at hph
        rcases hsusp with ⟨k3, hk⟩ | ⟨k3, hk⟩ <;> rw [hk] at hph <;> simp at hph
      · refine Or.inl ⟨j, ?_, hflag, hres⟩
        simp only [completeEff]
        rw [get?_set_other _ m i _ hmi]
        exact hj
    | workRaise m sl2 msg hm hph =>
      by_cases hmi : m = i
      · subst hmi
        have he : sl2 = ⟨j, .running prog, true⟩ := Option.some.inj (hm.symm.trans hj)
        subst he
        simp at hph
        rcases hsusp with ⟨k3, hk⟩ | ⟨k3, hk⟩ <;> rw [hk] at hph <;> simp at hph
      · refine Or.inl ⟨j, ?_, hflag, hres⟩
        simp only [failEff]
        rw [get?_set_other _ m i _ hmi]
        exact hj
    | workCheckOk m sl2 k2 hm hph hflag0 =>
      by_cases hmi : m = i
      · subst hmi
        have he : sl2 = ⟨j, .running prog, true⟩ := Option.some.inj (hm.symm.trans hj)
        subst he
        simp at hflag0
        simp [hflag0] at hflag
      · refine Or.inl ⟨j, ?_, hflag, hres⟩
        simp only [stepProgEff]
        rw [get?_set_other _ m i _ hmi]
        exact hj
    | workCheckCancelled m sl2 k2 hm hph hflag0 =>
      by_cases hmi : m = i
      · subst hmi
        have he : sl2 = ⟨j, .running prog, true⟩ := Option.some.inj (hm.symm.trans hj)
        subst he
        refine Or.inr ⟨{ j with status := .cancelled, error := some "Job was cancelled",
                                completedAt := some sM.time }, ?_, rfl, rfl, hres⟩
        simp only [cancelTermEff]
        exact get?_set_self _ _ _ hlt
      · refine Or.inl ⟨j, ?_, hflag, hres⟩
        simp only [cancelTermEff]
        rw [get?_set_other _ m i _ hmi]
        exact hj
    | workSleep m sl2 k2 hm hph hsig =>
      by_cases hmi : m = i
      · subst hmi
        have he : sl2 = ⟨j, .running prog, true⟩ := Option.some.inj (hm.symm.trans hj)
        subst he
        simp at hsig
      · refine Or.inl ⟨j, ?_, hflag, hres⟩
        simp only [stepProgEff]
        rw [get?_set_other _ m i _ hmi]
        exact hj
    | workUpdate m sl2 p st mm k2 hm hph hsig =>
      by_cases hmi : m = i
      · subst hmi
        have he : sl2 = ⟨j, .running prog, true⟩ := Option.some.inj (hm.symm.trans hj)
        subst he
        simp at hsig
      · refine Or.inl ⟨j, ?_, hflag, hres⟩
        simp only [updateEff]
        rw [get?_set_other _ m i _ hmi]
        exact hj
    | cancelCall m sl2 hm hstat =>
      by_cases hmi : m = i
      · subst hmi
        have he : sl2 = ⟨j, .running prog, true⟩ := Option.some.inj (hm.symm.trans hj)
        subst he
        refine Or.inl ⟨request_cancellation j, ?_, rfl, hres⟩
        simp only [cancelCallEff]
        exact get?_set_self _ _ _ hlt
      · refine Or.inl ⟨j, ?_, hflag, hres⟩
        simp only [cancelCallEff]
        rw [get?_set_other _ m i _ hmi]
        exact hj
    | deliverAtSem m sl2 prog2 hm hph hsig =>
      by_cases hmi : m = i
      · subst hmi
        have he : sl2 = ⟨j, .running prog, true⟩ := Option.some.inj (hm.symm.trans hj)
        subst he
        simp at hph
      · refine Or.inl ⟨j, ?_, hflag, hres⟩
        simp only [deadAtSemEff]
        rw [get?_set_other _ m i _ hmi]
        exact hj
    | deliverAtSleep m sl2 k2 hm hph hsig =>
      by_cases hmi : m = i
      · subst hmi
        have he : sl2 = ⟨j, .running prog, true⟩ := Option.some.inj (hm.symm.trans hj)
        subst he
        refine Or.inr ⟨{ j with status := .cancelled, error := some "Job was cancelled",
                                completedAt := some sM.time }, ?_, rfl, rfl, hres⟩
        simp only [cancelTermEff]
        exact get?_set_self _ _ _ hlt
      · refine Or.inl ⟨j, ?_, hflag, hres⟩
        simp only [cancelTermEff]
        rw [get?_set_other _ m i _ hmi]
        exact hj
    | deliverAtUpdate m sl2 p st mm k2 hm hph hsig =>
      by_cases hmi : m = i
      · subst hmi
        have he : sl2 = ⟨j, .running prog, true⟩ := Option.some.inj (hm.symm.trans hj)
        subst he
        simp at hph
        rcases hsusp with ⟨k3, hk⟩ | ⟨k3, hk⟩ <;> rw [hk] at hph <;> simp at hph
      · refine Or.inl ⟨j, ?_, hflag, hres⟩
        simp only [cancelTermEff]
        rw [get?_set_other _ m i _ hmi]
        exact hj
    | addObserver m sl2 ob hm =>
      by_cases hmi : m = i
      · subst hmi
        have he : sl2 = ⟨j, .running prog, true⟩ := Option.some.inj (hm.symm.trans hj)
        subst he
        refine Or.inl ⟨{ j with callbacks := j.callbacks ++ [ob] }, ?_, hflag, hres⟩
        simp only [addObserverEff]
        exact get?_set_self _ _ _ hlt
      · refine Or.inl ⟨j, ?_, hflag, hres⟩
        simp only [addObserverEff]
        rw [get?_set_other _ m i _ hmi]
        exact hj
  · have hlt := get?_lt _ _ _ hj
    cases hstep with
    | submit prog2 =>
      refine Or.inr ⟨j, ?_, hst, herr, hres⟩
      simp only [submitEff]
      rw [get?_append_left _ _ _ hlt]
      exact hj
    | acquire m sl2 prog2 hm hph hsig hsem0 =>
      by_cases hmi : m = i
      · subst hmi
        have he : sl2 = ⟨j, .done, true⟩ := Option.some.inj (hm.symm.trans hj)
        subst he
        simp at hph
      · refine Or.inr ⟨j, ?_, hst, herr, hres⟩
        simp only [acquireEff]
        rw [get?_set_other _ m i _ hmi]
        exact hj
    | workRet m sl2 v hm hph =>
      by_cases hmi : m = i
      · subst hmi
        have he : sl2 = ⟨j, .done, true⟩ := Option.some.inj (hm.symm.trans hj)
        subst he
        simp at hph
      · refine Or.inr ⟨j, ?_, hst, herr, hres⟩
        simp only [completeEff]
        rw [get?_set_other _ m i _ hmi]
        exact hj
    | workRaise m sl2 msg hm hph =>
      by_cases hmi : m = i
      · subst hmi
        have he : sl2 = ⟨j, .done, true⟩ := Option.some.inj (hm.symm.trans hj)
        subst he
        simp at hph
      · refine Or.inr ⟨j, ?_, hst, herr, hres⟩
        simp only [failEff]
        rw [get?_set_other _ m i _ hmi]
        exact hj
    | workCheckOk m sl2 k2 hm hph hflag0 =>
      by_cases hmi : m = i
      · subst hmi
        have he : sl2 = ⟨j, .done, true⟩ := Option.some.inj (hm.symm.trans hj)
        subst he
        simp at hph
      · refine Or.inr ⟨j, ?_, hst, herr, hres⟩
        simp only [stepProgEff]
        rw [get?_set_other _ m i _ hmi]
        exact hj
    | workCheckCancelled m sl2 k2 hm hph hflag0 =>
      by_cases hmi : m = i
      · subst hmi
        have he : sl2 = ⟨j, .done, true⟩ := Option.some.inj (hm.symm.trans hj)
        subst he
        simp at hph
      · refine Or.inr ⟨j, ?_, hst, herr, hres⟩
        simp only [cancelTermEff]
        rw [get?_set_other _ m i _ hmi]
        exact hj
    | workSleep m sl2 k2 hm hph hsig =>
      by_cases hmi : m = i
      · subst hmi
        have he : sl2 = ⟨j, .done, true⟩ := Option.some.inj (hm.symm.trans hj)
        subst he
        simp at hph
      · refine Or.inr ⟨j, ?_, hst, herr, hres⟩
        simp only [stepProgEff]
        rw [get?_set_other _ m i _ hmi]
        exact hj
    | workUpdate m sl2 p st mm k2 hm hph hsig =>
      by_cases hmi : m = i
      · subst hmi
        have he : sl2 = ⟨j, .done, true⟩ := Option.some.inj (hm.symm.trans hj)
        subst he
        simp at hph
      · refine Or.inr ⟨j, ?_, hst, herr, hres⟩
        simp only [updateEff]
        rw [get?_set_other _ m i _ hmi]
        exact hj
    | cancelCall m sl2 hm hstat =>
      by_cases hmi : m = i
      · subst hmi
        have he : sl2 = ⟨j, .done, true⟩ := Option.some.inj (hm.symm.trans hj)
        subst he
        rcases hstat with h0 | h0 <;> simp at h0 <;> simp [h0] at hst
      · refine Or.inr ⟨j, ?_, hst, herr, hres⟩
        simp only [cancelCallEff]
        rw [get?_set_other _ m i _ hmi]
        exact hj
    | deliverAtSem m sl2 prog2 hm hph hsig =>
      by_cases hmi : m = i
      · subst hmi
        have he : sl2 = ⟨j, .done, true⟩ := Option.some.inj (hm.symm.trans hj)
        subst he
        simp at hph
      · refine Or.inr ⟨j, ?_, hst, herr, hres⟩
        simp only [deadAtSemEff]
        rw [get?_set_other _ m i _ hmi]
        exact hj
    | deliverAtSleep m sl2 k2 hm hph hsig =>
      by_cases hmi : m = i
      · subst hmi
        have he : sl2 = ⟨j, .done, true⟩ := Option.some.inj (hm.symm.trans hj)
        subst he
        simp at hph
      · refine Or.inr ⟨j, ?_, hst, herr, hres⟩
        simp only [cancelTermEff]
        rw [get?_set_other _ m i _ hmi]
        exact hj
    | deliverAtUpdate m sl2 p st mm k2 hm hph hsig =>
      by_cases hmi : m = i
      · subst hmi
        have he : sl2 = ⟨j, .done, true⟩ := Option.some.inj (hm.symm.trans hj)
        subst he
        simp at hph
      · refine Or.inr ⟨j, ?_, hst, herr, hres⟩
        simp only [cancelTermEff]
        rw [get?_set_other _ m i _ hmi]
        exact hj
    | addObserver m sl2 ob hm =>
      by_cases hmi : m = i
      · subst hmi
        have he : sl2 = ⟨j, .done, true⟩ := Option.some.inj (hm.symm.trans hj)
        subst he
        refine Or.inr ⟨{ j with callbacks := j.callbacks ++ [ob] }, ?_, hst, herr, hres⟩
        simp only [addObserverEff]
        exact get?_set_self _ _ _ hlt
      · refine Or.inr ⟨j, ?_, hst, herr, hres⟩
        simp only [addObserverEff]
        rw [get?_set_other _ m i _ hmi]
        exact hj

/-- The frozen-slot property over any number of scheduler steps. -/
theorem cancelled_slot_frozen {N : Nat} {s1 s2 : QState} {i : Nat} {prog : WorkProg}
    (hsusp : IsSusp prog) (hsteps : Steps N s1 s2)
    (hstart : ∃ j : Job, s1.slots[i]? = some ⟨j, .running prog, true⟩ ∧
      j.cancelRequested = true ∧ j.result = none) :
    (∃ j : Job, s2.slots[i]? = some ⟨j, .running prog, true⟩ ∧
      j.cancelRequested = true ∧ j.result = none) ∨
    (∃ j : Job, s2.slots[i]? = some ⟨j, .done, true⟩ ∧ j.status = .cancelled ∧
      j.error = some "Job was cancelled" ∧ j.result = none) := by
  induction hsteps with
  | refl => exact Or.inl hstart
  | tail hpre hstep ih => exact cancelled_slot_frozen_step hsusp hstep ih

/-- C7: for a work function that loops calling check_cancellation() between
sleeps, if cancel(id) fires while the job is Running (the event is set and
the task signalled while parked at a sleep or check_cancellation point),
then once the supervising task finishes the Job is Cancelled, its error is
the fixed message "Job was cancelled" set by _run_job, and result is null. -/
theorem cancel_during_running_loop_reaches_cancelled (N : Nat) (s1 s2 : QState)
    (i : Nat) (j j2 : Job) (prog : WorkProg) (sig2 : Bool)
    (h1 : Reachable N s1) (h2 : Steps N s1 s2)
    (hslot : s1.slots[i]? = some ⟨j, .running prog, true⟩)
    (hsusp : IsSusp prog)
    (hdone : s2.slots[i]? = some ⟨j2, .done, sig2⟩) :
    j2.status = .cancelled ∧ j2.error = some "Job was cancelled" ∧ j2.result = none := by
  obtain ⟨hslots, _⟩ := inv_reachable h1
  obtain ⟨hps, hsf, hfo⟩ := hslots _ (get?_mem _ _ _ hslot)
  have hstat : j.status = .running := hps
  have hflag : j.cancelRequested = true := hsf rfl
  have hres : j.result = none := by
    simp only [fieldOk, hstat] at hfo
    exact hfo.2.2.2
  rcases cancelled_slot_frozen hsusp h2 ⟨j, hslot, hflag, hres⟩ with
    ⟨j3, hj3, _, _⟩ | ⟨j3, hj3, h3a, h3b, h3c⟩
  · rw [hdone] at hj3
    simp at hj3
  · rw [hdone] at hj3
    have hj23 : j2 = j3 := congrArg JobSlot.job (Option.some.inj hj3)
    rw [hj23]
    exact ⟨h3a, h3b, h3c⟩

/-- Scenario of C7: a loop of check_cancellation and sleep, cancelled after
its first iteration while Running. -/
def loopRest : WorkProg := .sleep (.checkCancel (.sleep (.ret (some "r"))))

def progLoop : WorkProg := .checkCancel loopRest

def loopS0 : QState := initState 1

def loopS1 : QState := submitEff loopS0 progLoop

def loopSlot1 : JobSlot := ⟨newJob 0 0, .waitingSem progLoop, false⟩

def loopS2 : QState := acquireEff loopS1 0 loopSlot1 progLoop

def jLoopRun : Job := { newJob 0 0 with status := .running, startedAt := some 1 }

def loopSlot2 : JobSlot := ⟨jLoopRun, .running progLoop, false⟩

def loopS3 : QState := stepProgEff loopS2 0 loopSlot2 loopRest

def loopSlot3 : JobSlot := ⟨jLoopRun, .running loopRest, false⟩

def loopS4 : QState := cancelCallEff loopS3 0 loopSlot3

def loopSlot4 : JobSlot := ⟨request_cancellation jLoopRun, .running loopRest, true⟩

def loopS5 : QState := cancelTermEff loopS4 0 loopSlot4 (request_cancellation jLoopRun)

/-- The Job after the CancelledError is delivered at the sleep. -/
def jLoopFinal : Job :=
  { request_cancellation jLoopRun with status := .cancelled,
                                       error := some "Job was cancelled",
                                       completedAt := some 4 }

theorem loop_reach4 : Reachable 1 loopS4 :=
  Relation.ReflTransGen.tail
    (Relation.ReflTransGen.tail
      (Relation.ReflTransGen.tail
        (Relation.ReflTransGen.tail Relation.ReflTransGen.refl
          (Step.submit loopS0 progLoop))
        (Step.acquire loopS1 0 loopSlot1 progLoop (by decide) rfl rfl (by decide)))
      (Step.workCheckOk loopS2 0 loopSlot2 loopRest (by decide) rfl rfl))
    (Step.cancelCall loopS3 0 loopSlot3 (by decide) (Or.inr rfl))

theorem loop_steps_4_5 : Steps 1 loopS4 loopS5 :=
  Relation.ReflTransGen.single
    (Step.deliverAtSleep loopS4 0 loopSlot4 (.checkCancel (.sleep (.ret (some "r"))))
      (by decide) rfl rfl)

/-- Witness for C7 at the concrete loop scenario. -/
theorem cancel_during_running_loop_reaches_cancelled_witness :
    loopS4.slots[0]? = some ⟨request_cancellation jLoopRun, .running loopRest, true⟩ ∧
    jLoopFinal.status = .cancelled ∧
    jLoopFinal.error = some "Job was cancelled" ∧
    jLoopFinal.result = none :=
  ⟨by decide,
   cancel_during_running_loop_reaches_cancelled 1 loopS4 loopS5 0
     (request_cancellation jLoopRun) jLoopFinal loopRest true
     loop_reach4 loop_steps_4_5 (by decide)
     (Or.inl ⟨.checkCancel (.sleep (.ret (some "r"))), rfl⟩) (by decide)⟩

/-- Execution in which a job with a raising observer and a well-behaved
observer runs one update_progress and then completes. -/
def progObs : WorkProg := .updateProg (1/2) "x" "halfway" (.ret (some "ok"))

def obsS0 : QState := initState 1

def obsS1 : QState := submitEff obsS0 progObs

def obsSlot1 : JobSlot := ⟨newJob 0 0, .waitingSem progObs, false⟩

def obsS2 : QState := addObserverEff obsS1 0 obsSlot1 ⟨true, []⟩

def obsSlot2 : JobSlot :=
  ⟨{ newJob 0 0 with callbacks := [⟨true, []⟩] }, .waitingSem progObs, false⟩

def obsS3 : QState := addObserverEff obsS2 0 obsSlot2 ⟨false, []⟩

def obsSlot3 : JobSlot :=
  ⟨{ newJob 0 0 with callbacks := [⟨true, []⟩, ⟨false, []⟩] }, .waitingSem progObs, false⟩

def obsS4 : QState := acquireEff obsS3 0 obsSlot3 progObs

def jObsRun : Job :=
  { newJob 0 0 with callbacks := [⟨true, []⟩, ⟨false, []⟩],
                    status := .running, startedAt := some 3 }

def obsSlot4 : JobSlot := ⟨jObsRun, .running progObs, false⟩

def obsS5 : QState := updateEff obsS4 0 obsSlot4 (1/2) "x" "halfway" (.ret (some "ok"))

def jObs5 : Job := update_progress jObsRun (1/2) "x" "halfway"

def obsSlot5 : JobSlot := ⟨jObs5, .running (.ret (some "ok")), false⟩

def obsS6 : QState := completeEff obsS5 0 obsSlot5 (some "ok")

def obsSlotFinal : JobSlot :=
  ⟨{ jObs5 with status := .completed, result := some "ok", progress := 1,
                completedAt := some 5 }, .done, false⟩

theorem obs_reach6 : Reachable 1 obsS6 :=
  Relation.ReflTransGen.tail
    (Relation.ReflTransGen.tail
      (Relation.ReflTransGen.tail
        (Relation.ReflTransGen.tail
          (Relation.ReflTransGen.tail
            (Relation.ReflTransGen.tail Relation.ReflTransGen.refl
              (Step.submit obsS0 progObs))
            (Step.addObserver obsS1 0 obsSlot1 ⟨true, []⟩ rfl))
          (Step.addObserver obsS2 0 obsSlot2 ⟨false, []⟩ rfl))
        (Step.acquire obsS3 0 obsSlot3 progObs rfl rfl rfl (by decide)))
      (Step.workUpdate obsS4 0 obsSlot4 (1/2) "x" "halfway" (.ret (some "ok"))
        rfl rfl rfl))
    (Step.workRet obsS5 0 obsSlot5 (some "ok") rfl rfl)

/-- C6: a progress observer that raises on every invocation (a) never
propagates its exception to the caller of update_progress — the dispatch
loop in the exception monad always returns ok; (b) never prevents any other
registered observer from receiving the same update — dispatch acts
independently per observer, appending the update to every non-raising one;
and (c) does not prevent the Job from reaching its correct terminal state —
in a concrete execution with a raising observer registered first, the job
still Completes with its result, and the well-behaved second observer
received the (clamped) update. -/
theorem observer_isolation :
    (∀ (os : List Observer) (u : JobProgress),
      notifyCallbacksE os u = .ok (notifyCallbacks os u)) ∧
    (∀ (os : List Observer) (u : JobProgress),
      notifyCallbacks os u
        = os.map (fun o => if o.raises then o
                           else { o with received := o.received ++ [u] })) ∧
    (∃ sl : JobSlot, Reachable 1 obsS6 ∧ obsS6.slots[0]? = some sl ∧
      sl.job.status = .completed ∧ sl.job.result = some "ok" ∧
      sl.job.callbacks
        = [⟨true, []⟩, ⟨false, [⟨max 0 (min 1 (1/2)), "x", "halfway"⟩]⟩] ∧
      max 0 (min 1 ((1 : ℚ)/2)) = 1/2) := by
  refine ⟨?_, ?_, ?_⟩
  · intro os u
    induction os with
    | nil => rfl
    | cons o rest ih =>
      simp only [notifyCallbacksE, ih]
      rfl
  · intro os u
    induction os with
    | nil => rfl
    | cons o rest ih =>
      cases ho : o.raises <;> simp [notifyCallbacks, runCallback, ho, ih]
  · refine ⟨obsSlotFinal, obs_reach6, rfl, rfl, rfl, rfl, ?_⟩
    norm_num

/-!
Model of the two checkpoint/archive write paths.  A file system maps paths
to contents; a write sequence is a list of atomic events; a crash after k
events leaves the file system produced by the length-k prefix.
-/

abbrev FsPath := String

/-- A file system: paths to contents, none when the file is absent. -/
def FileSys : Type := FsPath → Option String

/-- One atomic filesystem action: open(path, "w") truncates, each buffered
json.dump write appends one chunk, Path.replace atomically renames. -/
inductive FsEvent where
  | truncate (p : FsPath)
  | write (p : FsPath) (chunk : String)
  | rename (src dst : FsPath)

def applyEvent (fs : FileSys) : FsEvent → FileSys
  | .truncate p => fun q => if q = p then some "" else fs q
  | .write p c => fun q => if q = p then some ((fs p).getD "" ++ c) else fs q
  | .rename src dst =>
    match fs src with
    | some v => fun q => if q = src then none else if q = dst then some v else fs q
    | none => fs

def applyEvents (fs : FileSys) (evs : List FsEvent) : FileSys :=
  evs.foldl applyEvent fs

/-- Embeds the write path of save_recovery_state (recovery.py lines 94-99):
filepath.open("w") on the canonical checkpoint path itself, then json.dump
into it.  There is no temporary file and no rename. -/
def save_recovery_state_events (path : FsPath) (chunks : List String) : List FsEvent :=
  .truncate path :: chunks.map (.write path)

/-- Embeds the write path of save_project (project_io.py lines 82-90): open
the temporary file, json.dump into it, then temp_path.replace(filepath). -/
def save_project_events (tmp dst : FsPath) (chunks : List String) : List FsEvent :=
  .truncate tmp :: (chunks.map (.write tmp) ++ [.rename tmp dst])

/-- The canonical checkpoint path of an example project. -/
def recPath : FsPath := "p1.alproj.tmp"

/-- A file system already holding a complete previous checkpoint. -/
def recFs0 : FileSys := fun q => if q = recPath then some "OLD" else none

/-- C3, counterexample: the claim says save_recovery_state writes via a
temporary file plus atomic rename, so the canonical path always holds the
previous or the new complete version.  The code writes the canonical path
directly: a crash immediately after the truncating open (prefix of length
one) leaves the canonical checkpoint path holding the empty partial file —
neither the previous complete version nor the new one. -/
theorem recovery_save_direct_write_not_atomic :
    applyEvents recFs0 ((save_recovery_state_events recPath ["NEW"]).take 1) recPath
      = some "" ∧
    ¬ (∀ k : Nat,
        applyEvents recFs0 ((save_recovery_state_events recPath ["NEW"]).take k) recPath
          = some "OLD" ∨
        applyEvents recFs0 ((save_recovery_state_events recPath ["NEW"]).take k) recPath
          = some "NEW") := by
  constructor
  · decide
  · intro h
    rcases h 1 with h1 | h1 <;> exact absurd h1 (by decide)

theorem write_chunks_other {tmp dst : FsPath} (htd : dst ≠ tmp) :
    ∀ (cs : List String) (fs : FileSys),
      applyEvents fs (cs.map (.write tmp)) dst = fs dst := by
  intro cs
  induction cs with
  | nil => intro fs; rfl
  | cons c rest ih =>
    intro fs
    have : applyEvents fs ((c :: rest).map (.write tmp)) dst
        = applyEvents (applyEvent fs (.write tmp c)) (rest.map (.write tmp)) dst := rfl
    rw [this, ih]
    simp [applyEvent, htd]

theorem write_chunks_content {tmp : FsPath} :
    ∀ (cs : List String) (fs : FileSys) (acc : String), fs tmp = some acc →
      applyEvents fs (cs.map (.write tmp)) tmp
        = some (cs.foldl (fun a c => a ++ c) acc) := by
  intro cs
  induction cs with
  | nil => intro fs acc h; simpa [applyEvents] using h
  | cons c rest ih =>
    intro fs acc h
    have hstep : applyEvents fs ((c :: rest).map (.write tmp)) tmp
        = applyEvents (applyEvent fs (.write tmp c)) (rest.map (.write tmp)) tmp := rfl
    rw [hstep, ih (applyEvent fs (.write tmp c)) (acc ++ c) (by simp [applyEvent, h])]
    rfl

/-- C3, amended: save_recovery_state writes the snapshot directly to the
canonical checkpoint path (truncate, then appended chunks), so a crash
mid-write can leave a partial file there: whenever the previous content and
the new payload are non-empty, some crash point leaves the canonical path
holding neither complete version.  The write-temp-then-rename discipline
the claim describes is the one used by save_project for project archives,
and for that path the destination does hold either its previous content or
the complete new payload at every crash point. -/
theorem checkpoint_direct_write_vs_archive_atomic_rename
    (fs0 : FileSys) (old : String) (chunks : List String) (p tmp dst : FsPath)
    (hold : fs0 p = some old) (hOldNe : old ≠ "")
    (hNewNe : chunks.foldl (fun a c => a ++ c) "" ≠ "")
    (htd : dst ≠ tmp) :
    (∃ k : Nat,
      applyEvents fs0 ((save_recovery_state_events p chunks).take k) p ≠ some old ∧
      applyEvents fs0 ((save_recovery_state_events p chunks).take k) p
        ≠ some (chunks.foldl (fun a c => a ++ c) "")) ∧
    (∀ k : Nat,
      applyEvents fs0 ((save_project_events tmp dst chunks).take k) dst = fs0 dst ∨
      applyEvents fs0 ((save_project_events tmp dst chunks).take k) dst
        = some (chunks.foldl (fun a c => a ++ c) "")) := by
  constructor
  · refine ⟨1, ?_, ?_⟩ <;>
      · simp only [save_recovery_state_events, List.take_succ_cons, List.take_zero]
        simp [applyEvents, applyEvent]
        intro hcontra
        first
          | exact hOldNe hcontra.symm
          | exact hNewNe hcontra.symm
  · intro k
    cases k with
    | zero => exact Or.inl rfl
    | succ k2 =>
      simp only [save_project_events, List.take_succ_cons]
      by_cases hk : k2 ≤ chunks.length
      · left
        rw [List.take_append_of_le_length (by simpa using hk)]
        have hmt : (chunks.map (FsEvent.write tmp)).take k2
            = (chunks.take k2).map (FsEvent.write tmp) := by
          simp [List.map_take]
        rw [hmt]
        have hstep : applyEvents fs0
              (FsEvent.truncate tmp :: (chunks.take k2).map (.write tmp)) dst
            = applyEvents (applyEvent fs0 (.truncate tmp))
              ((chunks.take k2).map (.write tmp)) dst := rfl
        rw [hstep, write_chunks_other htd]
        simp [applyEvent, htd]
      · right
        have hlen : (chunks.map (FsEvent.write tmp) ++ [FsEvent.rename tmp dst]).length ≤ k2 := by
          simp
          omega
        rw [List.take_of_length_le hlen]
        have hsplit : applyEvents fs0
              (FsEvent.truncate tmp :: (chunks.map (.write tmp) ++ [.rename tmp dst])) dst
            = applyEvent (applyEvents (applyEvent fs0 (.truncate tmp))
                (chunks.map (.write tmp))) (.rename tmp dst) dst := by
          simp [applyEvents, List.foldl_append]
        rw [hsplit]
        have hcontent : applyEvents (applyEvent fs0 (.truncate tmp))
              (chunks.map (.write tmp)) tmp
            = some (chunks.foldl (fun a c => a ++ c) "") :=
          write_chunks_content chunks _ "" (by simp [applyEvent])
        generalize hW : applyEvents (applyEvent fs0 (.truncate tmp))
            (chunks.map (.write tmp)) = fsW at hcontent ⊢
        simp [applyEvent, hcontent, htd]

/-- A file system holding a previous checkpoint and a previous archive. -/
def wRecFs : FileSys :=
  fun q => if q = "r.alproj.tmp" then some "OLD"
           else if q = "a.alproj" then some "PREV" else none

/-- Witness for the amended C3 at a concrete file system, checkpoint path,
archive temp path and archive destination. -/
theorem checkpoint_direct_write_vs_archive_atomic_rename_witness :
    (∃ k : Nat,
      applyEvents wRecFs ((save_recovery_state_events "r.alproj.tmp" ["NE", "W"]).take k)
          "r.alproj.tmp" ≠ some "OLD" ∧
      applyEvents wRecFs ((save_recovery_state_events "r.alproj.tmp" ["NE", "W"]).take k)
          "r.alproj.tmp" ≠ some (["NE", "W"].foldl (fun a c => a ++ c) "")) ∧
    (∀ k : Nat,
      applyEvents wRecFs ((save_project_events "a.alproj.tmp" "a.alproj" ["NE", "W"]).take k)
          "a.alproj" = wRecFs "a.alproj" ∨
      applyEvents wRecFs ((save_project_events "a.alproj.tmp" "a.alproj" ["NE", "W"]).take k)
          "a.alproj" = some (["NE", "W"].foldl (fun a c => a ++ c) "")) :=
  checkpoint_direct_write_vs_archive_atomic_rename wRecFs "OLD" ["NE", "W"]
    "r.alproj.tmp" "a.alproj.tmp" "a.alproj"
    (by decide) (by decide) (by decide) (by decide)

/-!
Model of the websocket progress endpoint job_progress_websocket
(georectify.py lines 538-628).  The handler is deterministic given the
job map, the sequence of job snapshots observed at each loop iteration
(job = await job_queue.get(job_id) re-reads the job), and the sequence of
queue receptions (an update, or none on a 1-second timeout heartbeat).
-/

/-- Messages the handler can send over the socket. -/
inductive WsMsg where
  | notFound (jobId : Nat)
  | snapshot (progress : ℚ) (step message status : String)
  | progressUpdate (progress : ℚ) (step message : String)
  | finalMsg (progress : ℚ) (step : String) (message : Option String)
      (status : String) (result : Option String)
deriving DecidableEq

/-- Observable outcome of one websocket connection: the messages sent in
order, the close code (4004 on the not-found path, the default 1000
otherwise), and whether a progress observer was registered on the job. -/
structure WsOutcome where
  messages : List WsMsg
  closeCode : Nat
  observerRegistered : Bool
deriving DecidableEq

/-- Embeds dict lookup job_queue.get(job_id) over the queue's job map. -/
def lookupJob (jobs : List (Nat × Job)) (jid : Nat) : Option Job :=
  (jobs.find? (fun e => e.1 == jid)).map (fun e => e.2)

/-- The final message of the loop (georectify.py lines 596-603). -/
def wsFinalMsg (j : Job) : WsMsg :=
  .finalMsg j.progress
    (if j.status = .completed then "finished" else j.step)
    (if j.status = .failed then j.error else some "Processing complete")
    j.status.value
    (if j.status = .completed then j.result else none)

/-- The message loop (georectify.py lines 589-618): re-read the job, stop
when it disappears, send the final message when it is terminal, otherwise
forward the next queued update (a timeout sends nothing). -/
def wsLoop : List (Option Job) → List (Option JobProgress) → List WsMsg
  | [], _ => []
  | none :: _, _ => []
  | some j :: rest, updates =>
    if j.status.isTerminal then [wsFinalMsg j]
    else
      match updates with
      | [] => []
      | ou :: urest =>
        (match ou with
         | some u => [.progressUpdate u.progress u.step u.message]
         | none => []) ++ wsLoop rest urest

/-- Embeds job_progress_websocket: accept, look the job up; if absent, send
exactly the error object and close with code 4004, registering nothing;
otherwise send one snapshot (empty step and message replaced by "pending"
and "Waiting to start..." through the Python or-defaults), register the
observer, run the loop, and close normally. -/
def wsHandler (jobs : List (Nat × Job)) (jid : Nat)
    (jobStates : List (Option Job)) (updates : List (Option JobProgress)) : WsOutcome :=
  match lookupJob jobs jid with
  | none => ⟨[.notFound jid], 4004, false⟩
  | some j =>
    ⟨.snapshot j.progress
        (if j.step = "" then "pending" else j.step)
        (if j.message = "" then "Waiting to start..." else j.message)
        j.status.value
      :: wsLoop jobStates updates, 1000, true⟩

/-- C9: a progress-streaming connection opened with a job id that is not in
the queue sends exactly one message, the not-found error object carrying
that job id, closes with the distinguished close code 4004 (distinct from
the normal-path close), and registers no observer on any job. -/
theorem ws_unknown_job_single_error_and_close
    (jobs : List (Nat × Job)) (jid : Nat)
    (jobStates : List (Option Job)) (updates : List (Option JobProgress))
    (h : lookupJob jobs jid = none) :
    wsHandler jobs jid jobStates updates = ⟨[.notFound jid], 4004, false⟩ ∧
    (wsHandler jobs jid jobStates updates).messages.length = 1 ∧
    (wsHandler jobs jid jobStates updates).closeCode ≠ 1000 := by
  have hw : wsHandler jobs jid jobStates updates = ⟨[.notFound jid], 4004, false⟩ := by
    simp [wsHandler, h]
  exact ⟨hw, by rw [hw]; rfl, by rw [hw]; simp⟩

/-- Witness for C9: a queue holding job 0 receives a connection for the
absent id 7. -/
theorem ws_unknown_job_single_error_and_close_witness :
    wsHandler [(0, newJob 0 0)] 7 [] [] = ⟨[.notFound 7], 4004, false⟩ ∧
    (wsHandler [(0, newJob 0 0)] 7 [] []).messages.length = 1 ∧
    (wsHandler [(0, newJob 0 0)] 7 [] []).closeCode ≠ 1000 :=
  ws_unknown_job_single_error_and_close [(0, newJob 0 0)] 7 [] [] (by decide)

/-!
Model of the destination-path normalization in save_project (project_io.py
lines 66-70).  A path name (the component after the last slash) is a list
of characters; suffix and with_suffix follow CPython's pathlib: the suffix
starts at the last dot provided that dot has characters on both sides.
-/

/-- Splits a reversed character list at its first dot, i.e. the original
list at its last dot (str.rfind): returns the characters after the dot and
the characters before it, both still reversed. -/
def revSplitAtDot : List Char → Option (List Char × List Char)
  | [] => none
  | c :: rest =>
    if c = '.' then some ([], rest)
    else
      match revSplitAtDot rest with
      | some (suf, pre) => some (c :: suf, pre)
      | none => none

theorem revSplitAtDot_eq : ∀ (l a b : List Char),
    revSplitAtDot l = some (a, b) → l = a ++ '.' :: b := by
  intro l
  induction l with
  | nil => intro a b h; simp [revSplitAtDot] at h
  | cons c rest ih =>
    intro a b h
    by_cases hc : c = '.'
    · subst hc
      simp [revSplitAtDot] at h
      obtain ⟨ha, hb⟩ := h
      subst ha
      subst hb
      rfl
    · rw [revSplitAtDot] at h
      rw [if_neg hc] at h
      cases hsp : revSplitAtDot rest with
      | none => rw [hsp] at h; simp at h
      | some pr =>
        obtain ⟨suf, pre⟩ := pr
        rw [hsp] at h
        simp at h
        obtain ⟨ha, hb⟩ := h
        rw [← ha, ← hb, ih suf pre hsp]
        rfl

/-- Embeds PurePath.suffix for a slash-free name: the part of the name from
its last dot on, provided 0 < i < len(name) - 1 (a leading dot or a
trailing dot yields the empty suffix). -/
def path_suffix (name : List Char) : List Char :=
  match revSplitAtDot name.reverse with
  | some (sufRev, preRev) =>
    if sufRev ≠ [] ∧ preRev ≠ [] then '.' :: sufRev.reverse else []
  | none => []

/-- Embeds PurePath.with_suffix for a valid dot-led suffix argument: raises
ValueError (none) on an empty name, replaces the old suffix when there is
one, appends otherwise. -/
def path_with_suffix (name sfx : List Char) : Option (List Char) :=
  if name = [] then none
  else some (match revSplitAtDot name.reverse with
    | some (sufRev, preRev) =>
      if sufRev ≠ [] ∧ preRev ≠ [] then preRev.reverse ++ sfx else name ++ sfx
    | none => name ++ sfx)

/-- The ".alproj" suffix as characters. -/
def alprojSfx : List Char := ".alproj".toList

/-- Embeds the destination normalization of save_project: keep the name
when filepath.suffix.lower() == ".alproj", otherwise replace the suffix
with ".alproj" via with_suffix. -/
def save_project_target (name : List Char) : Option (List Char) :=
  if (path_suffix name).map Char.toLower = alprojSfx then some name
  else path_with_suffix name alprojSfx

theorem alprojSfx_lower : alprojSfx.map Char.toLower = alprojSfx := by decide

/-- C10: for a destination whose extension is not ".alproj"
(case-insensitively), save_project writes at the path with its suffix
replaced by ".alproj" — a genuinely different path from the one the caller
gave; a destination already ending in ".alproj" (any case) is used
unchanged. -/
theorem save_project_extension_normalization (name : List Char) (hne : name ≠ []) :
    ((path_suffix name).map Char.toLower = alprojSfx →
      save_project_target name = some name) ∧
    ((path_suffix name).map Char.toLower ≠ alprojSfx →
      save_project_target name = path_with_suffix name alprojSfx ∧
      save_project_target name ≠ some name) := by
  constructor
  · intro h
    simp [save_project_target, h]
  · intro h
    refine ⟨by simp [save_project_target, h], ?_⟩
    simp only [save_project_target, h, if_false]
    rw [path_with_suffix, if_neg hne]
    cases hsp : revSplitAtDot name.reverse with
    | none =>
      simp only
      intro hcontra
      have hlen := congrArg List.length (Option.some.inj hcontra)
      simp [alprojSfx] at hlen
    | some pr =>
      obtain ⟨sufRev, preRev⟩ := pr
      show some (if sufRev ≠ [] ∧ preRev ≠ [] then preRev.reverse ++ alprojSfx
                 else name ++ alprojSfx) ≠ some name
      by_cases hcond : sufRev ≠ [] ∧ preRev ≠ []
      · rw [if_pos hcond]
        intro hcontra
        have hname : name = preRev.reverse ++ '.' :: sufRev.reverse := by
          have h1 := revSplitAtDot_eq name.reverse sufRev preRev hsp
          have h2 := congrArg List.reverse h1
          simpa using h2
        have h3 := Option.some.inj hcontra
        rw [hname] at h3
        have h4 : alprojSfx = '.' :: sufRev.reverse := List.append_cancel_left h3
        have h5 : path_suffix name = '.' :: sufRev.reverse := by
          simp [path_suffix, hsp, hcond]
        rw [h5, ← h4, alprojSfx_lower] at h
        exact h rfl
      · rw [if_neg hcond]
        intro hcontra
        have hlen := congrArg List.length (Option.some.inj hcontra)
        simp [alprojSfx] at hlen

/-- Witness for C10: "photo.jpg" is rewritten to "photo.alproj" (a different
path), while "x.ALPROJ" is kept unchanged. -/
theorem save_project_extension_normalization_witness :
    save_project_target "photo.jpg".toList = path_with_suffix "photo.jpg".toList alprojSfx ∧
    save_project_target "photo.jpg".toList ≠ some "photo.jpg".toList ∧
    save_project_target "x.ALPROJ".toList = some "x.ALPROJ".toList ∧
    save_project_target "photo.jpg".toList = some "photo.alproj".toList :=
  ⟨((save_project_extension_normalization "photo.jpg".toList (by decide)).2 (by decide)).1,
   ((save_project_extension_normalization "photo.jpg".toList (by decide)).2 (by decide)).2,
   (save_project_extension_normalization "x.ALPROJ".toList (by decide)).1 (by decide),
   by decide⟩
